import Mathlib

/-!
Verification of the tygr-ui hunt pipeline core against its specification.

The definitions below are a shallow embedding of the TypeScript sources:
  - `src/tygr/src/lib/websocket-manager.ts` (the `EventParser` class),
  - `src/tygr/src/lib/hunt-controller.ts` (`HuntController`),
  - `src/tygr/src/lib/process-manager.ts` (`ProcessManager`),
  - `src/tygr/src/workers/hunt-worker.ts` (`processHuntJob`).

Conventions: JavaScript strings are modelled by `String` / `List Char`;
`Date` timestamps are modelled by `Nat` milliseconds passed explicitly;
code that can throw is modelled with `Option` / `Except`; the host
`JSON.parse` builtin is modelled by a standard JSON grammar parser
(`Json.parse?`) returning `none` exactly where `JSON.parse` throws.
-/

/-- JSON values, the result type of the host `JSON.parse` builtin.
Numbers keep their source lexeme (their numeric value is never inspected
by the embedded code). -/
inductive Json where
  | null : Json
  | bool (b : Bool) : Json
  | num (raw : String) : Json
  | str (s : String) : Json
  | arr (elems : List Json) : Json
  | obj (fields : List (String × Json)) : Json
deriving Repr

/-- JSON insignificant whitespace. -/
def isJsonWs (c : Char) : Bool :=
  c = ' ' || c = '\t' || c = '\n' || c = '\r'

/-- Drop leading JSON whitespace. -/
def skipWs : List Char → List Char
  | [] => []
  | c :: rest => if isJsonWs c then skipWs rest else c :: rest

def isDigitChar (c : Char) : Bool := 48 ≤ c.toNat && c.toNat ≤ 57

/-- Longest digit run at the front of the input. -/
def takeDigits : List Char → List Char × List Char
  | [] => ([], [])
  | c :: rest =>
    if isDigitChar c then
      let r := takeDigits rest
      (c :: r.1, r.2)
    else ([], c :: rest)

/-- Optional fraction part of a JSON number. -/
def parseFracPart (cs : List Char) : Option (List Char × List Char) :=
  match cs with
  | '.' :: rest =>
    let r := takeDigits rest
    if r.1.isEmpty then none else some ('.' :: r.1, r.2)
  | _ => some ([], cs)

/-- Optional exponent part of a JSON number. -/
def parseExpPart (cs : List Char) : Option (List Char × List Char) :=
  match cs with
  | c :: rest =>
    if c = 'e' || c = 'E' then
      let sgn : List Char × List Char :=
        match rest with
        | s :: r2 => if s = '+' || s = '-' then ([s], r2) else ([], rest)
        | [] => ([], rest)
      let r := takeDigits sgn.2
      if r.1.isEmpty then none else some (c :: (sgn.1 ++ r.1), r.2)
    else some ([], cs)
  | [] => some ([], [])

/-- Lex a JSON number, returning its lexeme and the remaining input. -/
def parseNumberLex (cs : List Char) : Option (List Char × List Char) :=
  let head : List Char × List Char :=
    match cs with
    | '-' :: rest => (['-'], rest)
    | _ => ([], cs)
  let intr := takeDigits head.2
  if intr.1.isEmpty then none
  else
    match parseFracPart intr.2 with
    | none => none
    | some (f, cs3) =>
      match parseExpPart cs3 with
      | none => none
      | some (e, cs4) => some (head.1 ++ intr.1 ++ f ++ e, cs4)

/-- Value of one hexadecimal digit (for `\u` escapes). -/
def hexVal (c : Char) : Option Nat :=
  let n := c.toNat
  if 48 ≤ n ∧ n ≤ 57 then some (n - 48)
  else if 97 ≤ n ∧ n ≤ 102 then some (n - 87)
  else if 65 ≤ n ∧ n ≤ 70 then some (n - 55)
  else none

/-- Body of a JSON string after the opening quote: returns the decoded
characters and the input after the closing quote.  Rejects raw control
characters and bad escapes, as `JSON.parse` does. -/
def parseStringBody : Nat → List Char → Option (List Char × List Char)
  | 0, _ => none
  | _ + 1, [] => none
  | fuel + 1, c :: rest =>
    if c = '"' then some ([], rest)
    else if c.toNat < 32 then none
    else if c = '\\' then
      match rest with
      | [] => none
      | e :: rest2 =>
        let cont (decoded : Char) (rem : List Char) : Option (List Char × List Char) :=
          (parseStringBody fuel rem).map (fun p => (decoded :: p.1, p.2))
        if e = '"' || e = '\\' || e = '/' then cont e rest2
        else if e = 'b' then cont (Char.ofNat 8) rest2
        else if e = 'f' then cont (Char.ofNat 12) rest2
        else if e = 'n' then cont '\n' rest2
        else if e = 'r' then cont '\r' rest2
        else if e = 't' then cont '\t' rest2
        else if e = 'u' then
          match rest2 with
          | h1 :: h2 :: h3 :: h4 :: rest3 =>
            match hexVal h1, hexVal h2, hexVal h3, hexVal h4 with
            | some a, some b, some c2, some d =>
              cont (Char.ofNat (((a * 16 + b) * 16 + c2) * 16 + d)) rest3
            | _, _, _, _ => none
          | _ => none
        else none
    else
      (parseStringBody fuel rest).map (fun p => (c :: p.1, p.2))

mutual

/-- Parse one JSON value (fuel-indexed recursive descent). -/
def parseJsonValue : Nat → List Char → Option (Json × List Char)
  | 0, _ => none
  | fuel + 1, cs0 =>
    match skipWs cs0 with
    | [] => none
    | c :: rest =>
      if c = 'n' then
        if rest.take 3 = "ull".data then some (Json.null, rest.drop 3) else none
      else if c = 't' then
        if rest.take 3 = "rue".data then some (Json.bool true, rest.drop 3) else none
      else if c = 'f' then
        if rest.take 4 = "alse".data then some (Json.bool false, rest.drop 4)
        else none
      else if c = '"' then
        (parseStringBody (rest.length + 1) rest).map
          (fun p => (Json.str (String.mk p.1), p.2))
      else if c = '\x7b' then
        match skipWs rest with
        | '\x7d' :: r => some (Json.obj [], r)
        | cs2 =>
          (parseJsonMembers fuel cs2).map (fun p => (Json.obj p.1, p.2))
      else if c = '[' then
        match skipWs rest with
        | ']' :: r => some (Json.arr [], r)
        | cs2 =>
          (parseJsonElems fuel cs2).map (fun p => (Json.arr p.1, p.2))
      else if c = '-' || isDigitChar c then
        (parseNumberLex (c :: rest)).map (fun p => (Json.num (String.mk p.1), p.2))
      else none

/-- Parse the members of a JSON object, positioned at a key. -/
def parseJsonMembers : Nat → List Char → Option (List (String × Json) × List Char)
  | 0, _ => none
  | fuel + 1, cs =>
    match cs with
    | '"' :: rest => do
      let kp ← parseStringBody (rest.length + 1) rest
      match skipWs kp.2 with
      | ':' :: r2 => do
        let vp ← parseJsonValue fuel r2
        match skipWs vp.2 with
        | ',' :: r4 => do
          let mp ← parseJsonMembers fuel (skipWs r4)
          pure ((String.mk kp.1, vp.1) :: mp.1, mp.2)
        | '\x7d' :: r4 => pure ([(String.mk kp.1, vp.1)], r4)
        | _unconsumed => none
      | _noColon => none
    | _notKey => none

/-- Parse the elements of a JSON array, positioned at a value. -/
def parseJsonElems : Nat → List Char → Option (List Json × List Char)
  | 0, _ => none
  | fuel + 1, cs => do
    let vp ← parseJsonValue fuel cs
    match skipWs vp.2 with
    | ',' :: r2 => do
      let ep ← parseJsonElems fuel (skipWs r2)
      pure (vp.1 :: ep.1, ep.2)
    | ']' :: r2 => pure ([vp.1], r2)
    | _ => none

end

/-- Model of the host `JSON.parse`: `some` on well-formed JSON text,
`none` where `JSON.parse` throws. -/
def Json.parse? (s : String) : Option Json :=
  match parseJsonValue (2 * s.data.length + 2) s.data with
  | some (v, rest) => if (skipWs rest).isEmpty then some v else none
  | none => none

/-- Field access `data.k` on a parsed JSON value: `none` on non-objects
and absent keys (JavaScript `undefined`); on duplicate keys the later
member wins, as in `JSON.parse`. -/
def Json.getField (j : Json) (k : String) : Option Json :=
  match j with
  | Json.obj fs => ((fs.filter (fun f => f.1 = k)).getLast?).map (fun f => f.2)
  | _ => none

/-!
## String primitives

JavaScript string operations used by `EventParser`, implemented over
`List Char` so that every definition reduces on concrete inputs.
-/

/-- Whitespace for JavaScript `String.prototype.trim`. -/
def isJsWs (c : Char) : Bool :=
  c = ' ' || c = '\t' || c = '\n' || c = '\r' || c = '\x0b' || c = '\x0c'

/-- Strip leading and trailing whitespace (JavaScript `trim()`). -/
def trimChars (cs : List Char) : List Char :=
  ((cs.dropWhile isJsWs).reverse.dropWhile isJsWs).reverse

/-- JavaScript `line.trim()`. -/
def jsTrim (s : String) : String := String.mk (trimChars s.data)

/-- Split around the first occurrence of `pat`: `some (before, after)`,
or `none` when `pat` does not occur (JavaScript `indexOf` returning -1). -/
def splitFirst : List Char → List Char → Option (List Char × List Char)
  | [], pat => if pat.isEmpty then some ([], []) else none
  | c :: rest, pat =>
    if pat.isPrefixOf (c :: rest) then some ([], (c :: rest).drop pat.length)
    else
      match splitFirst rest pat with
      | some (b, a) => some (c :: b, a)
      | none => none

/-- JavaScript `s.includes(pat)`. -/
def strIncludes (s pat : String) : Bool := (splitFirst s.data pat.data).isSome

/-- JavaScript `s.substring(s.indexOf(pat) + pat.length)`, used only when
`pat` occurs in `s` (the `none` fallback is unreachable in the source). -/
def substringAfterFirst (s pat : String) : String :=
  match splitFirst s.data pat.data with
  | some (_, a) => String.mk a
  | none => s

/-- JavaScript `s.startsWith(pre)`. -/
def strStartsWith (s pre : String) : Bool := pre.data.isPrefixOf s.data

/-- JavaScript `s.endsWith(suf)`. -/
def strEndsWith (s suf : String) : Bool := suf.data.reverse.isPrefixOf s.data.reverse

/-- JavaScript `s.toLowerCase()` (ASCII relevant range). -/
def jsToLower (s : String) : String := String.mk (s.data.map Char.toLower)

/-- JavaScript global regex replace of every dash with an underscore. -/
def replaceDashes (s : String) : String :=
  String.mk (s.data.map (fun c => if c = '-' then '_' else c))

/-!
## EventParser (src/tygr/src/lib/websocket-manager.ts)
-/

/-- The `EventType` union of the source. -/
inductive EventType where
  | hunt_started | hunt_completed | hunt_failed
  | agent_created | agent_started | agent_completed | agent_failed
  | tool_execution | vulnerability_found | phase_changed | progress_update
  | log | unknown
deriving DecidableEq, Repr

/-- A parsed event.  The source's `timestamp: Date` field (wall-clock
time of parsing) is elided; no claim mentions it. -/
structure ParsedEvent where
  type : EventType
  data : Json
  raw : String
deriving Repr

/-- `EventParser.eventMarkers`, in `Object.entries` (insertion) order. -/
def eventMarkers : List (String × String) :=
  [("HUNT_STARTED", "###HUNT_STARTED###"),
   ("HUNT_COMPLETED", "###HUNT_COMPLETED###"),
   ("HUNT_FAILED", "###HUNT_FAILED###"),
   ("AGENT_CREATED", "###AGENT_CREATED###"),
   ("AGENT_STARTED", "###AGENT_STARTED###"),
   ("AGENT_COMPLETED", "###AGENT_COMPLETED###"),
   ("AGENT_FAILED", "###AGENT_FAILED###"),
   ("TOOL_EXECUTION", "###TOOL_EXECUTION###"),
   ("VULN_EVENT", "###VULN_EVENT###"),
   ("PHASE_CHANGED", "###PHASE_CHANGED###"),
   ("PROGRESS", "###PROGRESS###")]

/-- `EventParser.markerToEventType`. -/
def markerToEventType (markerName : String) : EventType :=
  match markerName with
  | "HUNT_STARTED" => .hunt_started
  | "HUNT_COMPLETED" => .hunt_completed
  | "HUNT_FAILED" => .hunt_failed
  | "AGENT_CREATED" => .agent_created
  | "AGENT_STARTED" => .agent_started
  | "AGENT_COMPLETED" => .agent_completed
  | "AGENT_FAILED" => .agent_failed
  | "TOOL_EXECUTION" => .tool_execution
  | "VULN_EVENT" => .vulnerability_found
  | "PHASE_CHANGED" => .phase_changed
  | "PROGRESS" => .progress_update
  | _ => .unknown

/-- `EventParser.normalizeEventType`. -/
def normalizeEventType (type : String) : EventType :=
  match replaceDashes (jsToLower type) with
  | "hunt_started" => .hunt_started
  | "hunt_completed" => .hunt_completed
  | "hunt_failed" => .hunt_failed
  | "agent_created" => .agent_created
  | "agent_started" => .agent_started
  | "agent_completed" => .agent_completed
  | "agent_failed" => .agent_failed
  | "tool_execution" => .tool_execution
  | "vulnerability_found" => .vulnerability_found
  | "phase_changed" => .phase_changed
  | "progress_update" => .progress_update
  | "log" => .log
  | _ => .unknown

/-- `EventParser.parseMarkedEvent`.  The `try`/`catch` around
`JSON.parse` is the `none` branch: a malformed payload makes the method
return `null` (its `Date`-valued timestamp handling is elided with the
timestamps). -/
def parseMarkedEvent (line marker : String) (type : EventType) : Option ParsedEvent :=
  let jsonStr := jsTrim (substringAfterFirst line marker)
  if jsonStr = "" then
    some { type := type, data := Json.obj [], raw := line }
  else
    match Json.parse? jsonStr with
    | some data => some { type := type, data := data, raw := line }
    | none => none

/-- The default `log` event of `EventParser.parseLine`. -/
def logEvent (trimmed : String) : ParsedEvent :=
  { type := EventType.log
    data := Json.obj [("message", Json.str trimmed)]
    raw := trimmed }

/-- The bare-JSON branch of `EventParser.parseLine`: `some` exactly when
that branch returns from the method.  `data.type` must be a truthy
string for the typed return; any other truthy value makes the JavaScript
`type.toLowerCase()` call throw inside the surrounding `try`, and all of
those cases fall through to the default `log` event (`none` here). -/
def bareJsonEvent (trimmed : String) : Option ParsedEvent :=
  if strStartsWith trimmed "\x7b" && strEndsWith trimmed "\x7d" then
    match Json.parse? trimmed with
    | some data =>
      match Json.getField data "type" with
      | some (Json.str s) =>
        if s = "" then none
        else some { type := normalizeEventType s, data := data, raw := trimmed }
      | _ => none
    | none => none
  else none

/-- `EventParser.parseLine`. -/
def parseLine (line : String) : Option ParsedEvent :=
  let trimmed := jsTrim line
  if trimmed = "" then none
  else
    match eventMarkers.find? (fun q => strIncludes trimmed q.2) with
    | some q => parseMarkedEvent trimmed q.2 (markerToEventType q.1)
    | none =>
      match bareJsonEvent trimmed with
      | some e => some e
      | none => some (logEvent trimmed)

/-- `buffer.split('\n')` on character lists: one segment per line, the
last segment being the text after the final newline. -/
def splitNl : List Char → List (List Char)
  | [] => [[]]
  | c :: rest =>
    if c = '\n' then [] :: splitNl rest
    else
      match splitNl rest with
      | [] => [[c]]
      | l :: ls => (c :: l) :: ls

/-- The parser's mutable state: `private buffer = ''`, modelled as its
character list. -/
structure EventParser where
  buffer : List Char
deriving DecidableEq, Repr

/-- `EventParser.parse`: append the chunk, split on newlines, keep the
final (possibly incomplete) segment as the new buffer, and classify every
complete line, collecting the non-`null` results. -/
def EventParser.parse (p : EventParser) (data : String) : EventParser × List ParsedEvent :=
  let segs := splitNl (p.buffer ++ data.data)
  ({ buffer := segs.getLastD [] },
   segs.dropLast.filterMap (fun cs => parseLine (String.mk cs)))

/-- `EventParser.flush`.  When the buffer is whitespace-only the method
returns early WITHOUT clearing the buffer; otherwise it parses the
buffered line and resets the buffer. -/
def EventParser.flush (p : EventParser) : EventParser × List ParsedEvent :=
  if jsTrim (String.mk p.buffer) = "" then (p, [])
  else ({ buffer := [] }, (parseLine (String.mk p.buffer)).toList)

/-- `EventParser.reset`. -/
def EventParser.reset (_ : EventParser) : EventParser := { buffer := [] }

/-!
## Structural theory of `splitNl`
-/

theorem splitNl_ne_nil (cs : List Char) : splitNl cs ≠ [] := by
  match cs with
  | [] => simp [splitNl]
  | c :: rest =>
    simp only [splitNl]
    split
    · simp
    · split <;> simp

/-- Join two line-segment lists, merging the last segment of the first
with the first segment of the second (the seam of a split string). -/
def glueLast : List (List Char) → List (List Char) → List (List Char)
  | [], l => l
  | [x], [] => [x]
  | [x], h :: t => (x ++ h) :: t
  | x :: y :: xs, l => x :: glueLast (y :: xs) l

theorem glueLast_nil (l : List (List Char)) : glueLast [] l = l := rfl

theorem glueLast_single_cons (x h : List Char) (t : List (List Char)) :
    glueLast [x] (h :: t) = (x ++ h) :: t := rfl

theorem glueLast_cons₂ (x y : List Char) (xs l : List (List Char)) :
    glueLast (x :: y :: xs) l = x :: glueLast (y :: xs) l := rfl

theorem glueLast_ne_nil (x y : List (List Char)) (hx : x ≠ []) : glueLast x y ≠ [] := by
  match x, y with
  | [], _ => exact absurd rfl hx
  | [a], [] => simp [glueLast]
  | [a], h :: t => simp [glueLast]
  | a :: b :: xs, l => simp [glueLast]

theorem glueLast_assoc (x y z : List (List Char)) :
    glueLast (glueLast x y) z = glueLast x (glueLast y z) := by
  induction x with
  | nil => simp [glueLast_nil]
  | cons x0 xs ih =>
    cases xs with
    | nil =>
      cases y with
      | nil => cases z <;> rfl
      | cons y0 ys =>
        cases ys with
        | nil =>
          cases z with
          | nil => rfl
          | cons z0 zs => simp [glueLast_single_cons, glueLast]
        | cons y1 ys' =>
          rw [glueLast_single_cons, glueLast_cons₂, glueLast_cons₂]
          have hne : glueLast (y1 :: ys') z ≠ [] := glueLast_ne_nil _ _ (by simp)
          obtain ⟨g0, gs, hg⟩ := List.exists_cons_of_ne_nil hne
          rw [hg, glueLast_single_cons]
    | cons x1 xs' =>
      rw [glueLast_cons₂, glueLast_cons₂]
      have hne : glueLast (x1 :: xs') y ≠ [] := glueLast_ne_nil _ _ (by simp)
      obtain ⟨g0, gs, hg⟩ := List.exists_cons_of_ne_nil hne
      rw [hg, glueLast_cons₂, ← hg, ih]

theorem splitNl_cons_of_ne (c : Char) (rest : List Char) (hc : ¬ c = '\n') :
    splitNl (c :: rest) = glueLast [[c]] (splitNl rest) := by
  have h := splitNl_ne_nil rest
  obtain ⟨l, ls, hl⟩ := List.exists_cons_of_ne_nil h
  simp [splitNl, hc, hl, glueLast_single_cons]

theorem splitNl_append (a b : List Char) :
    splitNl (a ++ b) = glueLast (splitNl a) (splitNl b) := by
  induction a with
  | nil =>
    obtain ⟨l, ls, hl⟩ := List.exists_cons_of_ne_nil (splitNl_ne_nil b)
    simp [splitNl, hl, glueLast_single_cons]
  | cons c a' ih =>
    by_cases hc : c = '\n'
    · subst hc
      obtain ⟨l, ls, hl⟩ := List.exists_cons_of_ne_nil (splitNl_ne_nil a')
      have h1 : splitNl (('\n' :: a') ++ b) = [] :: splitNl (a' ++ b) := by
        rw [List.cons_append]; simp [splitNl]
      have h2 : splitNl ('\n' :: a') = [] :: splitNl a' := by simp [splitNl]
      rw [h1, h2, ih, hl, glueLast_cons₂]
    · rw [List.cons_append, splitNl_cons_of_ne c (a' ++ b) hc, ih,
        ← glueLast_assoc, ← splitNl_cons_of_ne c a' hc]

theorem mem_splitNl_no_newline (cs : List Char) :
    ∀ x ∈ splitNl cs, '\n' ∉ x := by
  induction cs with
  | nil => intro x hx; simp [splitNl] at hx; simp [hx]
  | cons c rest ih =>
    intro x hx
    by_cases hc : c = '\n'
    · subst hc
      rw [show splitNl ('\n' :: rest) = [] :: splitNl rest by simp [splitNl]] at hx
      rcases List.mem_cons.mp hx with h | h
      · simp [h]
      · exact ih x h
    · obtain ⟨l, ls, hl⟩ := List.exists_cons_of_ne_nil (splitNl_ne_nil rest)
      rw [show splitNl (c :: rest) = (c :: l) :: ls by simp [splitNl, hc, hl]] at hx
      rcases List.mem_cons.mp hx with h | h
      · subst h
        intro hmem
        rcases List.mem_cons.mp hmem with h' | h'
        · exact hc h'.symm
        · exact ih l (by rw [hl]; exact List.mem_cons_self l ls) h'
      · exact ih x (by rw [hl]; exact List.mem_cons_of_mem l h)

theorem splitNl_of_no_newline (cs : List Char) (h : '\n' ∉ cs) :
    splitNl cs = [cs] := by
  induction cs with
  | nil => rfl
  | cons c rest ih =>
    have hc : ¬ c = '\n' := fun he => h (by simp [he])
    have hr : '\n' ∉ rest := fun hm => h (List.mem_cons_of_mem c hm)
    simp [splitNl, hc, ih hr]

theorem getLastD_mem_of_ne_nil {α : Type} (l : List α) (d : α) (h : l ≠ []) :
    l.getLastD d ∈ l := by
  induction l generalizing d with
  | nil => exact absurd rfl h
  | cons m ms im =>
    cases ms with
    | nil => simp [List.getLastD]
    | cons k ks => exact List.mem_cons_of_mem m (im m (by simp))

theorem getLastD_append_of_ne_nil {α : Type} (l l' : List α) (d : α) (h : l' ≠ []) :
    (l ++ l').getLastD d = l'.getLastD d := by
  induction l generalizing d with
  | nil => simp
  | cons q qs iq =>
    rw [List.cons_append, List.getLastD_cons, iq q]
    obtain ⟨y, ys, hy⟩ := List.exists_cons_of_ne_nil h
    subst hy
    simp [← List.getLastD_eq_getLast?, List.getLastD_cons]

/-- Decomposition of `glueLast` into unchanged leading segments and the
glued seam. -/
theorem glueLast_eq (A B : List (List Char)) (hA : A ≠ []) (hB : B ≠ []) :
    glueLast A B = A.dropLast ++ (A.getLastD [] ++ B.headD []) :: B.tail := by
  induction A with
  | nil => exact absurd rfl hA
  | cons x xs ih =>
    cases xs with
    | nil =>
      obtain ⟨h, t, hB'⟩ := List.exists_cons_of_ne_nil hB
      subst hB'
      simp [glueLast_single_cons, List.getLastD]
    | cons x1 xs' =>
      rw [glueLast_cons₂, ih (by simp)]
      simp [List.getLastD]

/-!
## Chunk-boundary independence of `EventParser.parse`
-/

/-- After any `parse` call the retained buffer holds no newline: it is
exactly the text after the last newline seen so far. -/
theorem parse_buffer_no_newline (p : EventParser) (data : String) :
    '\n' ∉ ((p.parse data).1).buffer :=
  mem_splitNl_no_newline _ _
    (getLastD_mem_of_ne_nil _ [] (splitNl_ne_nil (p.buffer ++ data.data)))

/-- Feeding `a ++ b` is the same as feeding `a` then `b`: the state agrees
and the events concatenate. -/
theorem parse_append (p : EventParser) (a b : String) :
    p.parse (a ++ b) =
      (((p.parse a).1.parse b).1, (p.parse a).2 ++ ((p.parse a).1.parse b).2) := by
  obtain ⟨h0, t0, hbd⟩ := List.exists_cons_of_ne_nil (splitNl_ne_nil b.data)
  have hAne := splitNl_ne_nil (p.buffer ++ a.data)
  have hlast_nn : '\n' ∉ (splitNl (p.buffer ++ a.data)).getLastD [] :=
    mem_splitNl_no_newline _ _ (getLastD_mem_of_ne_nil _ [] hAne)
  have hB : splitNl ((splitNl (p.buffer ++ a.data)).getLastD [] ++ b.data)
      = ((splitNl (p.buffer ++ a.data)).getLastD [] ++ h0) :: t0 := by
    rw [splitNl_append, splitNl_of_no_newline _ hlast_nn, hbd, glueLast_single_cons]
  have hC : splitNl (p.buffer ++ (a ++ b).data)
      = (splitNl (p.buffer ++ a.data)).dropLast
          ++ ((splitNl (p.buffer ++ a.data)).getLastD [] ++ h0) :: t0 := by
    show splitNl (p.buffer ++ (a.data ++ b.data)) = _
    rw [← List.append_assoc, splitNl_append,
      glueLast_eq _ _ hAne (splitNl_ne_nil b.data), hbd]
    rfl
  simp only [EventParser.parse, hB, hC, Prod.mk.injEq, EventParser.mk.injEq]
  constructor
  · rw [getLastD_append_of_ne_nil _ _ _ (by simp)]
  · rw [List.dropLast_append_of_ne_nil _ (by simp), List.filterMap_append]

/-- Feed a sequence of chunks to the parser in order, collecting all
emitted events (the worker's repeated `stdout` handler calls). -/
def parseChunks : EventParser → List String → EventParser × List ParsedEvent
  | p, [] => (p, [])
  | p, c :: cs =>
    let r := p.parse c
    let rest := parseChunks r.1 cs
    (rest.1, r.2 ++ rest.2)

/-- Concatenation of a chunk sequence into a single chunk. -/
def concatChunks : List String → String
  | [] => ""
  | c :: cs => c ++ concatChunks cs

/-- The event types produced by feeding `chunks` to a fresh parser and
then calling `flush()`. -/
def runChunks (chunks : List String) : List EventType :=
  let r := parseChunks { buffer := [] } chunks
  let f := r.1.flush
  (r.2 ++ f.2).map (fun e => e.type)

theorem parseChunks_cons_eq (cs : List String) :
    ∀ (p : EventParser) (c : String),
      parseChunks p (c :: cs) = p.parse (concatChunks (c :: cs)) := by
  induction cs with
  | nil =>
    intro p c
    show (_, (p.parse c).2 ++ []) = p.parse (c ++ "")
    have hc : c ++ "" = c := by
      apply String.ext
      show c.data ++ "".data = c.data
      simp
    rw [hc, List.append_nil]
    rfl
  | cons c' cs' ih =>
    intro p c
    show ((parseChunks (p.parse c).1 (c' :: cs')).1,
          (p.parse c).2 ++ (parseChunks (p.parse c).1 (c' :: cs')).2)
        = p.parse (c ++ concatChunks (c' :: cs'))
    rw [ih, parse_append]

theorem concatChunks_single (s : String) : concatChunks [s] = s := by
  show s ++ "" = s
  apply String.ext
  show s.data ++ ([] : List Char) = s.data
  simp

theorem flush_of_trim_empty (p : EventParser) (h : jsTrim (String.mk p.buffer) = "") :
    p.flush = (p, []) := by
  unfold EventParser.flush
  rw [if_pos h]

theorem flush_fst_trim (p : EventParser) :
    jsTrim (String.mk ((p.flush).1.buffer)) = "" := by
  unfold EventParser.flush
  split
  next h => exact h
  next h => rfl

theorem flush_at_most_one (p : EventParser) : (p.flush).2.length ≤ 1 := by
  unfold EventParser.flush
  split
  · simp
  · cases parseLine (String.mk p.buffer) <;> simp [Option.toList]

theorem flush_flush (p : EventParser) : ((p.flush).1.flush).2 = [] := by
  rw [flush_of_trim_empty _ (flush_fst_trim p)]

/-- The trimmed text after the first occurrence of a marker: the payload
`parseMarkedEvent` tries to decode. -/
def markerPayload (trimmed marker : String) : String :=
  jsTrim (substringAfterFirst trimmed marker)

/-- Every configured marker is a non-empty string. -/
theorem eventMarkers_snd_ne_empty : ∀ q ∈ eventMarkers, (q.2).data ≠ [] := by decide

/-- Any line whose trimmed text contains a configured marker is not
blank. -/
theorem trim_ne_empty_of_find_marker (line : String) (q : String × String)
    (hfind : eventMarkers.find? (fun r => strIncludes (jsTrim line) r.2) = some q) :
    jsTrim line ≠ "" := by
  intro h0
  have hp := List.find?_some hfind
  have hmem := List.mem_of_find?_eq_some hfind
  have hne := eventMarkers_snd_ne_empty _ hmem
  obtain ⟨mc, mrest, hmk⟩ := List.exists_cons_of_ne_nil hne
  rw [h0] at hp
  unfold strIncludes at hp
  rw [show ("" : String).data = [] from rfl, hmk] at hp
  simp [splitFirst] at hp

/-- C1 (amended): on a line containing a marker, a missing payload
produces an event of the marker's type with an empty payload, while a
present-but-malformed payload makes `parseLine` return no event at all;
in neither case is an exception raised (the functions are total). -/
theorem c1_marked_payload (line name marker : String)
    (hfind : eventMarkers.find? (fun r => strIncludes (jsTrim line) r.2)
      = some (name, marker)) :
    (markerPayload (jsTrim line) marker = "" →
        parseLine line = some { type := markerToEventType name, data := Json.obj [],
                                raw := jsTrim line }) ∧
    (markerPayload (jsTrim line) marker ≠ "" →
        Json.parse? (markerPayload (jsTrim line) marker) = none →
        parseLine line = none) := by
  have htrim := trim_ne_empty_of_find_marker line (name, marker) hfind
  unfold parseLine
  rw [if_neg htrim, hfind]
  unfold parseMarkedEvent
  dsimp only
  constructor
  · intro hpay
    rw [show jsTrim (substringAfterFirst (jsTrim line) marker)
        = markerPayload (jsTrim line) marker from rfl, if_pos hpay]
  · intro hpay hnone
    rw [show jsTrim (substringAfterFirst (jsTrim line) marker)
        = markerPayload (jsTrim line) marker from rfl, if_neg hpay, hnone]

/-- C5 (amended): `parse`/`parseLine` are total (never raise); a blank
line yields no event; a non-blank line yields at most one event, and
yields none exactly when it is a marked line whose payload is present
but malformed. -/
theorem c5_line_events (line : String) :
    (jsTrim line = "" → parseLine line = none) ∧
    (jsTrim line ≠ "" →
      (parseLine line = none ↔
        ∃ q, eventMarkers.find? (fun r => strIncludes (jsTrim line) r.2) = some q ∧
          markerPayload (jsTrim line) q.2 ≠ "" ∧
          Json.parse? (markerPayload (jsTrim line) q.2) = none)) := by
  constructor
  · intro h
    unfold parseLine
    rw [if_pos h]
  · intro htrim
    unfold parseLine
    rw [if_neg htrim]
    rcases hf : eventMarkers.find? (fun r => strIncludes (jsTrim line) r.2) with _ | q
    · rw [hf]
      dsimp only
      constructor
      · intro hn
        exfalso
        cases hb : bareJsonEvent (jsTrim line) <;> rw [hb] at hn <;> simp at hn
      · rintro ⟨q, hfq, _, _⟩
        exact absurd hfq (by simp)
    · rw [hf]
      unfold parseMarkedEvent
      dsimp only
      rw [show jsTrim (substringAfterFirst (jsTrim line) q.2)
          = markerPayload (jsTrim line) q.2 from rfl]
      constructor
      · intro hn
        by_cases hpay : markerPayload (jsTrim line) q.2 = ""
        · rw [if_pos hpay] at hn
          simp at hn
        · rw [if_neg hpay] at hn
          rcases hj : Json.parse? (markerPayload (jsTrim line) q.2) with _ | v
          · exact ⟨q, rfl, hpay, hj⟩
          · rw [hj] at hn
            simp at hn
      · rintro ⟨q', hfq', hpay', hj'⟩
        have hq : q' = q := (Option.some.inj hfq').symm
        subst hq
        rw [if_neg hpay', hj']

/-!
## Claim theorems for the Event Stream Parser
-/

/-- C1, counterexample: the line `###PROGRESS### \x7b` contains a marker
and carries a malformed payload, yet `parse` yields NO event for it —
refuting "always yields at least one event for that line" and "yields an
event of the marker's type with an empty payload". -/
theorem c1_counterexample :
    strIncludes "###PROGRESS### \x7b" "###PROGRESS###" = true ∧
    EventParser.parse { buffer := [] } "###PROGRESS### \x7b\n" = ({ buffer := [] }, []) :=
  ⟨by decide, rfl⟩

/-- C1 witness: the empty-payload clause of `c1_marked_payload` applied
at a bare `###HUNT_STARTED###` line. -/
theorem c1_witness :
    parseLine "###HUNT_STARTED###"
      = some { type := EventType.hunt_started, data := Json.obj [],
               raw := "###HUNT_STARTED###" } :=
  (c1_marked_payload "###HUNT_STARTED###" "HUNT_STARTED" "###HUNT_STARTED###"
    (by decide)).1 (by decide)

/-- C5, counterexample: a non-blank complete line that yields no event
(marked line with malformed payload), refuting "every non-blank complete
line yields exactly one ParsedEvent". -/
theorem c5_counterexample :
    jsTrim "###VULN_EVENT### nope" ≠ "" ∧
    parseLine "###VULN_EVENT### nope" = none :=
  ⟨by decide, rfl⟩

/-- C5 witness: the blank-line clause of `c5_line_events` applied at a
concrete whitespace-only line. -/
theorem c5_witness : parseLine "   " = none :=
  (c5_line_events "   ").1 (by decide)

/-- C6: chunk-boundary independence.  Feeding any chunk sequence to a
fresh parser and flushing produces the same sequence of event types as
feeding the concatenation as a single chunk and flushing. -/
theorem c6_chunk_boundary_independence (chunks : List String) :
    runChunks chunks = runChunks [concatChunks chunks] := by
  cases chunks with
  | nil => rfl
  | cons c cs =>
    unfold runChunks
    rw [parseChunks_cons_eq, parseChunks_cons_eq, concatChunks_single]

/-- C6 witness: the theorem applied at a chunk sequence splitting a
marker and a payload across a chunk boundary. -/
theorem c6_witness :
    runChunks ["###PROG", "RESS### \x7b\"progress\":45\x7d\n###HUNT_COMP", "LETED###\n"]
      = runChunks [concatChunks
          ["###PROG", "RESS### \x7b\"progress\":45\x7d\n###HUNT_COMP", "LETED###\n"]] :=
  c6_chunk_boundary_independence _

/-- C10, counterexample: after parsing a whitespace-only chunk, `flush()`
returns early and does NOT clear the buffer, refuting "after flush() the
buffer is empty". -/
theorem c10_counterexample :
    ((EventParser.parse { buffer := [] } " ").1.flush).1.buffer = [' '] ∧
    ((EventParser.parse { buffer := [] } " ").1.flush).1.buffer ≠ [] :=
  ⟨rfl, by decide⟩

/-- C10 (amended): after every `parse` the buffer holds no newline;
`flush` returns at most one event; after `flush` the buffer is
whitespace-only (though not necessarily empty), so a second `flush`
returns the empty list. -/
theorem c10_buffer_invariants :
    (∀ (p : EventParser) (data : String), '\n' ∉ ((p.parse data).1).buffer) ∧
    (∀ p : EventParser, (p.flush).2.length ≤ 1) ∧
    (∀ p : EventParser, jsTrim (String.mk ((p.flush).1.buffer)) = "") ∧
    (∀ p : EventParser, ((p.flush).1.flush).2 = []) :=
  ⟨parse_buffer_no_newline, flush_at_most_one, flush_fst_trim, flush_flush⟩

/-!
## HuntController (src/tygr/src/lib/hunt-controller.ts)

The Prisma-backed `Hunt` row, restricted to the fields the verified
operations read or write (identification fields such as name/target are
elided).  `Date` values are `Nat` milliseconds.
-/

structure Hunt where
  status : String
  progress : Nat
  currentPhase : Option String
  error : Option String
  processId : Option String
  startedAt : Option Nat
  completedAt : Option Nat
  duration : Option Nat
  lastActivity : Option Nat
deriving DecidableEq, Repr

/-- A fresh `prisma.hunt.create` row as built by `startHunt`:
`status: 'pending', progress: 0`, everything else unset. -/
def initialHunt : Hunt :=
  { status := "pending", progress := 0, currentPhase := none, error := none,
    processId := none, startedAt := none, completedAt := none, duration := none,
    lastActivity := none }

/-- The optional `updates` argument of `updateHuntStatus`. -/
structure StatusUpdates where
  progress : Option Nat
  currentPhase : Option String
  error : Option String
  processId : Option String
deriving DecidableEq, Repr

def noUpdates : StatusUpdates :=
  { progress := none, currentPhase := none, error := none, processId := none }

/-- `calculateDuration`: seconds elapsed since `startedAt`, `none` when
the hunt never started. -/
def calculateDuration (startedAt : Option Nat) (now : Nat) : Option Nat :=
  match startedAt with
  | none => none
  | some s => some ((now - s) / 1000)

/-- The field merge of `updateHuntStatus`'s `data` object: `progress` is
applied when present (an explicit `!== undefined` test), while
`currentPhase`, `error` and `processId` are applied only when truthy
(present and non-empty). -/
def applyStatusUpdates (h : Hunt) (u : StatusUpdates) : Hunt :=
  let h1 := match u.progress with
    | some p => { h with progress := p }
    | none => h
  let h2 := match u.currentPhase with
    | some s => if s = "" then h1 else { h1 with currentPhase := some s }
    | none => h1
  let h3 := match u.error with
    | some s => if s = "" then h2 else { h2 with error := some s }
    | none => h2
  match u.processId with
  | some s => if s = "" then h3 else { h3 with processId := some s }
  | none => h3

/-- `HuntController.updateHuntStatus`.  The source guards the
`startedAt` stamp with `status === 'running' && !data.startedAt`, where
`data` is the update object just built — which never contains a
`startedAt` field at that point, so the second conjunct is always true;
the guard is kept verbatim as `dataStartedAt = none`. -/
def updateHuntStatus (hunt : Hunt) (status : String) (updates : StatusUpdates)
    (now : Nat) : Hunt :=
  let h0 : Hunt := { hunt with status := status, lastActivity := some now }
  let h4 := applyStatusUpdates h0 updates
  let dataStartedAt : Option Nat := none
  let h5 := if status = "running" ∧ dataStartedAt = none then
      { h4 with startedAt := some now }
    else h4
  if status = "completed" ∨ status = "failed" ∨ status = "stopped" then
    { h5 with completedAt := some now,
              duration := calculateDuration hunt.startedAt now }
  else h5

/-- `HuntController.startHunt`, after the hunt row is created: on enqueue
success the `pending` row is returned unchanged; when `enqueueHunt`
throws, the row is updated to `failed` with the error message recorded
(and the error is re-thrown, leaving the row as updated). -/
def startHunt (enqueueResult : Except String Unit) : Hunt :=
  let hunt := initialHunt
  match enqueueResult with
  | Except.ok _ => hunt
  | Except.error msg => { hunt with status := "failed", error := some msg }

/-!
## addVulnerability counter updates (C3)

`HuntController.addVulnerability` performs three database operations in
sequence: `prisma.vulnerability.create`, then `prisma.hunt.findUnique`
(a snapshot read of the counters), then `prisma.hunt.update` writing the
ABSOLUTE values `snapshot.vulnerabilityCount + 1` and
`snapshot.<severity>Count + 1` — a read-modify-write, not an atomic
increment.  Concurrent calls are modelled as interleavings of these
per-call atomic database operations.
-/

inductive Severity where
  | critical | high | medium | low | info
deriving DecidableEq, Repr

/-- The counter fields of the Hunt row touched by `addVulnerability`. -/
structure Counters where
  vulnerabilityCount : Nat
  criticalCount : Nat
  highCount : Nat
  mediumCount : Nat
  lowCount : Nat
  infoCount : Nat
deriving DecidableEq, Repr

def zeroCounters : Counters :=
  { vulnerabilityCount := 0, criticalCount := 0, highCount := 0,
    mediumCount := 0, lowCount := 0, infoCount := 0 }

/-- The `updates` object `addVulnerability` builds from its `findUnique`
snapshot and writes back with `prisma.hunt.update`: the total and the
one matching severity counter are set to snapshot values plus one;
fields not in the update object keep their current database value. -/
def applyCounterUpdates (db snap : Counters) (sev : Severity) : Counters :=
  let db1 := { db with vulnerabilityCount := snap.vulnerabilityCount + 1 }
  match sev with
  | .critical => { db1 with criticalCount := snap.criticalCount + 1 }
  | .high => { db1 with highCount := snap.highCount + 1 }
  | .medium => { db1 with mediumCount := snap.mediumCount + 1 }
  | .low => { db1 with lowCount := snap.lowCount + 1 }
  | .info => { db1 with infoCount := snap.infoCount + 1 }

/-- The database state for one hunt: its vulnerability rows (only the
severity is relevant) and its counters. -/
structure HuntDb where
  vulnerabilities : List Severity
  counters : Counters
deriving DecidableEq, Repr

/-- The progress of one in-flight `addVulnerability` call: whether its
`create` ran, the `findUnique` snapshot once taken, and whether its
`update` ran. -/
structure AddVulnCall where
  sev : Severity
  inserted : Bool
  snapshot : Option Counters
  written : Bool
deriving DecidableEq, Repr

def newCall (s : Severity) : AddVulnCall :=
  { sev := s, inserted := false, snapshot := none, written := false }

/-- Execute the next atomic database operation of one call. -/
def stepCall (db : HuntDb) (call : AddVulnCall) : HuntDb × AddVulnCall :=
  if call.inserted = false then
    ({ db with vulnerabilities := db.vulnerabilities ++ [call.sev] },
     { call with inserted := true })
  else
    match call.snapshot with
    | none => (db, { call with snapshot := some db.counters })
    | some snap =>
      if call.written = false then
        ({ db with counters := applyCounterUpdates db.counters snap call.sev },
         { call with written := true })
      else (db, call)

/-- Run an interleaving: each schedule entry is the index of the call
that performs its next database operation. -/
def runSchedule (db : HuntDb) (calls : List AddVulnCall) :
    List Nat → HuntDb × List AddVulnCall
  | [] => (db, calls)
  | i :: rest =>
    match calls.get? i with
    | some c =>
      let r := stepCall db c
      runSchedule r.1 (calls.set i r.2) rest
    | none => runSchedule db calls rest

/-- C3: `addVulnerability`'s counter update is a read-modify-write.  Two
concurrent calls of severity `high` on a hunt with zeroed counters, with
both `findUnique` reads scheduled before either `update` write, leave
`vulnerabilityCount = 1` and `highCount = 1` although two vulnerability
rows exist — one update is lost, violating "final vulnerabilityCount
equals N" and "atomic increments, never read-modify-write races".  The
sequential interleaving of the same two calls yields 2, showing the loss
is caused purely by the interleaving. -/
theorem c3_lost_update :
    (((runSchedule { vulnerabilities := [], counters := zeroCounters }
        [newCall .high, newCall .high] [0, 1, 0, 1, 0, 1]).1.counters.vulnerabilityCount = 1) ∧
     ((runSchedule { vulnerabilities := [], counters := zeroCounters }
        [newCall .high, newCall .high] [0, 1, 0, 1, 0, 1]).1.counters.highCount = 1) ∧
     ((runSchedule { vulnerabilities := [], counters := zeroCounters }
        [newCall .high, newCall .high] [0, 1, 0, 1, 0, 1]).1.vulnerabilities.length = 2)) ∧
    ((runSchedule { vulnerabilities := [], counters := zeroCounters }
        [newCall .high, newCall .high] [0, 0, 0, 1, 1, 1]).1.counters.vulnerabilityCount = 2) := by
  decide

/-- The hunt row after the worker's initial transition to `running`
(time 1000). -/
def runningHunt : Hunt := updateHuntStatus initialHunt "running" noUpdates 1000

/-- C4: `updateHuntStatus` re-stamps `startedAt` on EVERY update with
status `running`, not only the first: the guard tests `!data.startedAt`
on the freshly built update object (always true) instead of the stored
row's `startedAt`.  A second `running` update at time 2000 overwrites the
original stamp 1000.  The terminal-status clause behaves as claimed:
`completedAt` is stamped and `duration` computed. -/
theorem c4_startedAt_restamped :
    runningHunt.startedAt = some 1000 ∧
    (updateHuntStatus runningHunt "running" noUpdates 2000).startedAt = some 2000 ∧
    (updateHuntStatus runningHunt "running" noUpdates 2000).startedAt ≠ some 1000 ∧
    (updateHuntStatus runningHunt "completed" noUpdates 5000).completedAt = some 5000 ∧
    (updateHuntStatus runningHunt "completed" noUpdates 5000).duration = some 4 := by
  decide

/-- C8: when the enqueue call inside `startHunt` fails, the freshly
created Hunt is transitioned to `failed` with the enqueue error
recorded; it is never left in `pending`. -/
theorem c8_enqueue_failure (msg : String) :
    (startHunt (Except.error msg)).status = "failed" ∧
    (startHunt (Except.error msg)).error = some msg ∧
    (startHunt (Except.error msg)).status ≠ "pending" ∧
    (startHunt (Except.ok ())).status = "pending" :=
  ⟨rfl, rfl, fun h => absurd h (show ("failed" : String) ≠ "pending" by decide), rfl⟩

/-- C8 witness: applied at a concrete enqueue error. -/
theorem c8_witness :
    (startHunt (Except.error "Redis connection refused")).status = "failed" :=
  (c8_enqueue_failure "Redis connection refused").1

/-!
## ProcessManager (src/tygr/src/lib/process-manager.ts)

The spawned child is modelled with Node semantics: `subprocess.kill(sig)`
delivers the signal and sets `subprocess.killed` only when the process
has not already terminated (`killed` means "a signal was successfully
sent", NOT "the process has exited").
-/

structure ChildProcess where
  exited : Bool
  killedFlag : Bool
  signalsSent : List String
deriving DecidableEq, Repr

/-- Node `subprocess.kill(signal)`: a no-op returning failure on an
already-terminated process, otherwise the signal is delivered and the
`killed` flag set. -/
def ChildProcess.kill (c : ChildProcess) (signal : String) : ChildProcess :=
  if c.exited then c
  else { c with killedFlag := true, signalsSent := c.signalsSent ++ [signal] }

/-- The manager's own state: the child handle (never nulled by the
source) and its own `private killed = false` latch. -/
structure ProcessManager where
  process : Option ChildProcess
  killed : Bool
deriving DecidableEq, Repr

/-- `ProcessManager.stop`: early-returns when no process was started or
when its own `killed` latch is already set; otherwise sets the latch,
sends SIGTERM, and schedules the 5-second force-kill timeout.  The
second component records whether that timeout was scheduled. -/
def ProcessManager.stop (m : ProcessManager) : ProcessManager × Bool :=
  match m.process with
  | none => (m, false)
  | some c =>
    if m.killed then (m, false)
    else ({ m with killed := true, process := some (c.kill "SIGTERM") }, true)

/-- The body of the `setTimeout` callback scheduled by `stop`, running
when the 5-second grace period elapses: `if (this.process &&
!this.process.killed) this.process.kill('SIGKILL')`.  The guard reads
Node's `ChildProcess.killed` flag. -/
def forceKillTimeout (m : ProcessManager) : ProcessManager :=
  match m.process with
  | some c => if c.killedFlag = false then { m with process := some (c.kill "SIGKILL") } else m
  | none => m

/-- A manager supervising a live, not-yet-signalled child. -/
def liveManager : ProcessManager :=
  { process := some { exited := false, killedFlag := false, signalsSent := [] },
    killed := false }

/-- C7: the escalation never fires.  After `stop()` on a live process the
successful SIGTERM has already set `subprocess.killed`, so when the
5-second timeout runs — with the process still NOT exited — the guard
`!this.process.killed` is false and no SIGKILL is ever sent; the signals
delivered remain exactly `[SIGTERM]`.  This contradicts the claimed
escalation (and the source's own comment "Force kill after 5 seconds if
still running"); moreover the timeout is never cancelled
(no `clearTimeout` exists in `stop`). -/
theorem c7_no_escalation :
    (liveManager.stop).2 = true ∧
    (forceKillTimeout (liveManager.stop).1).process
      = some { exited := false, killedFlag := true, signalsSent := ["SIGTERM"] } := by
  decide

/-- C9: `stop()` is idempotent — a second call observes the `killed`
latch, changes no state, sends no signal, and schedules no timeout. -/
theorem c9_stop_idempotent (m : ProcessManager) :
    ProcessManager.stop (ProcessManager.stop m).1 = ((ProcessManager.stop m).1, false) := by
  rcases m with ⟨proc, killed⟩
  cases proc with
  | none => rfl
  | some c =>
    cases killed with
    | true => rfl
    | false => rfl

/-- C9 witness: the theorem applied at a live manager. -/
theorem c9_witness :
    ProcessManager.stop (ProcessManager.stop liveManager).1
      = ((ProcessManager.stop liveManager).1, false) :=
  c9_stop_idempotent liveManager

/-!
## Hunt worker finalization (src/tygr/src/workers/hunt-worker.ts)
-/

theorem updateHuntStatus_status (h : Hunt) (s : String) (u : StatusUpdates) (now : Nat) :
    (updateHuntStatus h s u now).status = s := by
  rcases u with ⟨up, uph, uerr, upid⟩
  unfold updateHuntStatus applyStatusUpdates
  dsimp only
  repeat' split
  all_goals rfl

theorem updateHuntStatus_error_of_ne (h : Hunt) (s : String) (msg : String)
    (hmsg : msg ≠ "") (now : Nat) :
    (updateHuntStatus h s
      { progress := none, currentPhase := none, error := some msg, processId := none }
      now).error = some msg := by
  unfold updateHuntStatus applyStatusUpdates
  dsimp only
  rw [if_neg hmsg]
  repeat' split
  all_goals rfl

theorem append_ne_empty_left (a b : String) (ha : a.data ≠ []) : a ++ b ≠ "" := by
  intro h
  apply ha
  have hd : a.data ++ b.data = [] := by
    rw [show a.data ++ b.data = (a ++ b).data from rfl, h]
  exact (List.append_eq_nil.mp hd).1

/-- The completion-wait promise of `processHuntJob`: it resolves when the
`exit` event reports code 0 OR a null code (abnormal/signal termination),
and rejects with `Process exited with code <code>` otherwise. -/
def exitWaitResult (code : Option Int) : Except String Unit :=
  match code with
  | none => Except.ok ()
  | some c =>
    if c = 0 then Except.ok ()
    else Except.error ("Process exited with code " ++ toString c)

/-- The tail of `processHuntJob` after the supervised process terminates:
on resolution the Hunt is marked `completed` with progress 100; on
rejection the `catch` marks it `failed` with the rejection message as its
error. -/
def finalizeHunt (hunt : Hunt) (code : Option Int) (now : Nat) : Hunt :=
  match exitWaitResult code with
  | Except.ok _ =>
    updateHuntStatus hunt "completed"
      { progress := some 100, currentPhase := none, error := none, processId := none } now
  | Except.error msg =>
    updateHuntStatus hunt "failed"
      { progress := none, currentPhase := none, error := some msg, processId := none } now

theorem finalizeHunt_status (hunt : Hunt) (code : Option Int) (now : Nat) :
    (finalizeHunt hunt code now).status
      = match code with
        | none => "completed"
        | some c => if c = 0 then "completed" else "failed" := by
  rcases code with _ | c
  · exact updateHuntStatus_status hunt "completed" _ now
  · dsimp only
    by_cases hc : c = 0
    · subst hc
      rw [if_pos rfl]
      exact updateHuntStatus_status hunt "completed" _ now
    · rw [if_neg hc]
      unfold finalizeHunt exitWaitResult
      dsimp only
      rw [if_neg hc]
      exact updateHuntStatus_status hunt "failed" _ now

theorem finalizeHunt_error_of_nonzero (hunt : Hunt) (c : Int) (hc : c ≠ 0) (now : Nat) :
    (finalizeHunt hunt (some c) now).error
      = some ("Process exited with code " ++ toString c) := by
  unfold finalizeHunt exitWaitResult
  dsimp only
  rw [if_neg hc]
  exact updateHuntStatus_error_of_ne hunt "failed" _
    (append_ne_empty_left _ _ (by decide)) now

/-- C2, counterexample: abnormal termination without an exit code (the
`exit` event's `code === null` case, e.g. a signal kill reported by the
runtime with a null code) is treated as SUCCESS by the completion wait
(`if (code === 0 || code === null) resolve()`), so the Hunt is marked
`completed`, not `failed`. -/
theorem c2_counterexample :
    (finalizeHunt initialHunt none 0).status = "completed" ∧
    (finalizeHunt initialHunt none 0).status ≠ "failed" := by
  constructor
  · exact finalizeHunt_status initialHunt none 0
  · rw [finalizeHunt_status initialHunt none 0]
    decide

/-- C2 (amended): the Worker marks the Hunt `completed` exactly when the
exit code is 0 OR the process terminated without an exit code (null);
for every non-zero integer exit code — including 137 — it marks the Hunt
`failed` with the non-empty error `Process exited with code <code>`
recorded. -/
theorem c2_exit_finalization (hunt : Hunt) (code : Option Int) (now : Nat) :
    ((finalizeHunt hunt code now).status = "completed" ↔
        (code = some 0 ∨ code = none)) ∧
    ((finalizeHunt hunt code now).status = "failed" ↔ ∃ c, code = some c ∧ c ≠ 0) ∧
    (∀ c : Int, code = some c → c ≠ 0 →
      (finalizeHunt hunt code now).error
          = some ("Process exited with code " ++ toString c) ∧
      ("Process exited with code " ++ toString c : String) ≠ "") := by
  refine And.intro ?_ (And.intro ?_ ?_)
  · rw [finalizeHunt_status]
    rcases code with _ | c
    · simp
    · dsimp only
      by_cases hc : c = 0
      · subst hc
        rw [if_pos rfl]
        constructor
        · intro _; exact Or.inl rfl
        · intro _; rfl
      · rw [if_neg hc]
        constructor
        · intro h
          exact absurd h (by decide)
        · rintro (h | h)
          · exact absurd (Option.some.inj h) hc
          · exact absurd h (by simp)
  · rw [finalizeHunt_status]
    rcases code with _ | c
    · constructor
      · intro h
        exact absurd h (by decide)
      · rintro ⟨c, h, _⟩
        exact absurd h (by simp)
    · dsimp only
      by_cases hc : c = 0
      · subst hc
        rw [if_pos rfl]
        constructor
        · intro h
          exact absurd h (by decide)
        · rintro ⟨c', h, hne⟩
          exact absurd (Option.some.inj h).symm hne
      · rw [if_neg hc]
        constructor
        · intro _; exact ⟨c, rfl, hc⟩
        · intro _; rfl
  · intro c hcode hc
    subst hcode
    exact ⟨finalizeHunt_error_of_nonzero hunt c hc now,
      append_ne_empty_left _ _ (by decide)⟩

/-- C2 witness: exit code 137 (the spec's killed-process scenario) at a
concrete hunt marks it `failed`. -/
theorem c2_witness : (finalizeHunt runningHunt (some 137) 5000).status = "failed" :=
  ((c2_exit_finalization runningHunt (some 137) 5000).2.1).mpr ⟨137, rfl, by decide⟩
